import Mathlib

/-!
Verification of the SCMessenger mesh-monitor core (`analyze_mesh.py`):
identifier extraction, self-identity resolution, the visibility matrix,
and the mesh-convergence verdict, embedded shallowly over `List Char`.
-/

set_option maxHeartbeats 4000000
set_option maxRecDepth 10000

namespace SCMesh

/-- Peer identifiers are modelled as lists of characters. -/
abbrev PeerId := List Char

/-- The five node names, in the iteration order of the `logs` table. -/
inductive NodeName where
  | gcp
  | osx
  | android
  | ios_dev
  | ios_sim
deriving DecidableEq, Fintype, Repr

/-- Iteration order of the `logs` dictionary. -/
def NODE_LIST : List NodeName :=
  [NodeName.gcp, NodeName.osx, NodeName.android, NodeName.ios_dev, NodeName.ios_sim]

/-- Node roles, as in `NODE_TYPES`. -/
inductive NodeRole where
  | Full
  | Headless
deriving DecidableEq, Repr

/-- The `NODE_TYPES` table. -/
def NODE_TYPES : NodeName → NodeRole
  | NodeName.gcp => NodeRole.Headless
  | NodeName.osx => NodeRole.Headless
  | NodeName.android => NodeRole.Full
  | NodeName.ios_dev => NodeRole.Full
  | NodeName.ios_sim => NodeRole.Full

/-- The textual label of a node name (the dictionary key strings). -/
def nodeStr : NodeName → List Char
  | NodeName.gcp => ('g' :: 'c' :: 'p' :: [])
  | NodeName.osx => ('o' :: 's' :: 'x' :: [])
  | NodeName.android => ('a' :: 'n' :: 'd' :: 'r' :: 'o' :: 'i' :: 'd' :: [])
  | NodeName.ios_dev => ('i' :: 'o' :: 's' :: '_' :: 'd' :: 'e' :: 'v' :: [])
  | NodeName.ios_sim => ('i' :: 'o' :: 's' :: '_' :: 's' :: 'i' :: 'm' :: [])

/-- The base-58-like alphabet of `PAT`: `[1-9A-HJ-NP-Za-km-z]`. -/
def isB58 (c : Char) : Bool :=
  ('1' ≤ c && c ≤ '9') || ('A' ≤ c && c ≤ 'H') || ('J' ≤ c && c ≤ 'N') ||
  ('P' ≤ c && c ≤ 'Z') || ('a' ≤ c && c ≤ 'k') || ('m' ≤ c && c ≤ 'z')

/-- The `[a-zA-Z0-9]` alphabet used by the `OWN_ID_PATTERNS` captures. -/
def isAlnum (c : Char) : Bool :=
  ('0' ≤ c && c ≤ '9') || ('A' ≤ c && c ≤ 'Z') || ('a' ≤ c && c ≤ 'z')

/-- The literal `12D3KooW` that opens every peer identifier. -/
def pidHead : List Char := '1' :: '2' :: 'D' :: '3' :: 'K' :: 'o' :: 'o' :: 'W' :: []

/-- Case-sensitive test that `l` occurs right here, at the head of `s`. -/
def litHere : List Char → List Char → Bool
  | [], _ => true
  | _ :: _, [] => false
  | c :: cs, d :: ds => c == d && litHere cs ds

/-- Longest run of base-58 characters at the head of the list. -/
def takeB58 : List Char → List Char
  | [] => []
  | c :: cs => if isB58 c then c :: takeB58 cs else []

/-- One left-to-right, non-overlapping, greedy scan of `PAT.findall`:
at each position try the literal `12D3KooW` followed by a maximal base-58
run of length at least 44; on success emit the match and resume after it,
otherwise advance one character.  `fuel` bounds the recursion and is
instantiated with the text's length, which each step strictly consumes. -/
def findIdsAux : Nat → List Char → List PeerId
  | 0, _ => []
  | _ + 1, [] => []
  | fuel + 1, c :: cs =>
    if litHere pidHead (c :: cs) then
      let rest := List.drop 8 (c :: cs)
      let run := takeB58 rest
      if 44 ≤ run.length then
        (pidHead ++ run) :: findIdsAux fuel (List.drop run.length rest)
      else
        findIdsAux fuel cs
    else
      findIdsAux fuel cs

/-- All matches of `PAT` in the text, in order, duplicates kept
(`PAT.findall`). -/
def findIds (s : List Char) : List PeerId := findIdsAux s.length s

/-- Number of characters of an ANSI escape body consumed through the first
`m`, scanning only non-newline characters (the lazy `.*?m`); `none` when a
newline or the end of the text comes first. -/
def findEsc : List Char → Option Nat
  | [] => none
  | c :: cs =>
    if c = 'm' then some 1
    else if c = '\n' then none
    else (findEsc cs).map (· + 1)

/-- Substitution step of the ANSI pattern `ESC [ .*? m` with the empty string:
on `ESC [` followed by a terminating `m` on the same line, delete through
the `m` and resume after it; otherwise keep the character and move on. -/
def stripAnsiAux : Nat → List Char → List Char
  | 0, s => s
  | _ + 1, [] => []
  | fuel + 1, c :: cs =>
    if c = '\x1b' then
      match cs with
      | '[' :: rest =>
        match findEsc rest with
        | some k => stripAnsiAux fuel (List.drop k rest)
        | none => c :: stripAnsiAux fuel cs
      | _ => c :: stripAnsiAux fuel cs
    else
      c :: stripAnsiAux fuel cs

/-- The full substitution, as in the source: the stripping both the main loop and
`resolve_own_id` perform before matching. -/
def stripAnsi (s : List Char) : List Char := stripAnsiAux s.length s

/-- Distinct identifiers, as `set(PAT.findall(clean))`, for a node's text: strip ANSI escapes, then
the distinct identifiers found, first occurrence first. -/
def peers_in_log (content : List Char) : List PeerId :=
  (findIds (stripAnsi content)).dedup

/-- The character classes the `OWN_ID_PATTERNS` regexes use before their
capture group. -/
inductive Cls where
  | dotNN
  | ws
  | wsColon
  | usSpace
  | eqColon
deriving DecidableEq, Repr

/-- Class semantics: `dotNN` is `.` (anything but newline), `ws` is `\s`, `wsColon` is
`[:\s]`, `usSpace` is `[_ ]`, `eqColon` is `[=:]`. -/
def Cls.eval : Cls → Char → Bool
  | Cls.dotNN, c => c != '\n'
  | Cls.ws, c =>
    c == ' ' || c == '\t' || c == '\n' || c == '\r' || c == '\x0b' || c == '\x0c'
  | Cls.wsColon, c =>
    c == ':' || c == ' ' || c == '\t' || c == '\n' || c == '\r' || c == '\x0b' || c == '\x0c'
  | Cls.usSpace, c => c == '_' || c == ' '
  | Cls.eqColon, c => c == '=' || c == ':'

/-- One regex element of a pattern's pre-capture part: a literal, a single
class character, a greedy or lazy Kleene star, a greedy plus, or an
optional character. -/
inductive RxItem where
  | lit (l : List Char)
  | one (k : Cls)
  | star (k : Cls)
  | lazyStar (k : Cls)
  | plus (k : Cls)
  | opt (c : Char)
deriving DecidableEq, Repr

/-- Case folding used for `re.IGNORECASE` patterns. -/
def ciFold (ci : Bool) (c : Char) : Char := if ci then c.toLower else c

/-- Literal occurrence at the head of `s`, case-folded when `ci`. -/
def litHereCi (ci : Bool) : List Char → List Char → Bool
  | [], _ => true
  | _ :: _, [] => false
  | c :: cs, d :: ds => ciFold ci c == ciFold ci d && litHereCi ci cs ds

/-- Length of the maximal run of characters of class `k` at the head. -/
def clsRun (k : Cls) : List Char → Nat
  | [] => 0
  | c :: cs => if k.eval c then clsRun k cs + 1 else 0

/-- Length of the maximal `[a-zA-Z0-9]` run at the head. -/
def alnumRun : List Char → Nat
  | [] => 0
  | c :: cs => if isAlnum c then alnumRun cs + 1 else 0

/-- Positions `i + n, i + n - 1, …, i`: what a greedy star offers, in
backtracking priority order. -/
def descFrom (i n : Nat) : List Nat := (List.range (n + 1)).map (fun d => i + n - d)

/-- Positions `i, i + 1, …, i + n`: what a lazy star offers. -/
def ascFrom (i n : Nat) : List Nat := (List.range (n + 1)).map (fun d => i + d)

/-- Positions `i + n, …, i + 1`: what a greedy plus offers. -/
def descPos (i n : Nat) : List Nat := (List.range n).map (fun d => i + n - d)

/-- The positions after matching one regex element at position `i` of `s`,
in the backtracking engine's priority order. -/
def matchItem (ci : Bool) (s : List Char) : RxItem → Nat → List Nat
  | RxItem.lit l, i => if litHereCi ci l (List.drop i s) then [i + l.length] else []
  | RxItem.one k, i =>
    match List.drop i s with
    | [] => []
    | c :: _ => if k.eval c then [i + 1] else []
  | RxItem.star k, i => descFrom i (clsRun k (List.drop i s))
  | RxItem.lazyStar k, i => ascFrom i (clsRun k (List.drop i s))
  | RxItem.plus k, i => descPos i (clsRun k (List.drop i s))
  | RxItem.opt c, i =>
    match List.drop i s with
    | [] => [i]
    | d :: _ => if ciFold ci d == ciFold ci c then [i + 1, i] else [i]

/-- All end positions of a sequence of regex elements matched from `i`,
in backtracking priority order (lexicographic in the items' choices). -/
def matchSeq : List RxItem → Bool → List Char → Nat → List Nat
  | [], _, _, i => [i]
  | it :: rest, ci, s, i => ((matchItem ci s it i).map (matchSeq rest ci s)).flatten

/-- The capture group `(12D3KooW[a-zA-Z0-9]{44,})` tried at position `j`:
the literal head (case-folded under `re.I`) followed by a maximal
alphanumeric run of length at least 44; the captured text is the original
slice. -/
def captureAt (ci : Bool) (s : List Char) (j : Nat) : Option PeerId :=
  if litHereCi ci pidHead (List.drop j s) then
    let n := alnumRun (List.drop 8 (List.drop j s))
    if 44 ≤ n then some (List.take (8 + n) (List.drop j s)) else none
  else none

/-- One compiled `OWN_ID_PATTERNS` entry: its `re.IGNORECASE` flag and the
regex elements that precede the common capture group. -/
structure OwnPat where
  ci : Bool
  pre : List RxItem
deriving DecidableEq, Repr

/-- Search, as `pat.search(clean)`: the leftmost start position at which the whole
pattern matches, the pre-capture part backtracking in priority order, and
the value of the capture group there. -/
def searchPat (p : OwnPat) (s : List Char) : Option PeerId :=
  (List.range (s.length + 1)).findSome? fun i =>
    (matchSeq p.pre p.ci s i).findSome? fun j => captureAt p.ci s j

/-- Pattern `local_peer_id\s*=\s*(CAP)` -/
def ownPat1 : OwnPat :=
  ⟨false, [RxItem.lit ("local_peer_id".toList), RxItem.star Cls.ws,
           RxItem.lit ("=".toList), RxItem.star Cls.ws]⟩

/-- Pattern `Local Peer ID:\s*(CAP)` -/
def ownPat2 : OwnPat :=
  ⟨false, [RxItem.lit ("Local Peer ID:".toList), RxItem.star Cls.ws]⟩

/-- Pattern `SwarmBridge with peer id:?\s*(CAP)` -/
def ownPat3 : OwnPat :=
  ⟨false, [RxItem.lit ("SwarmBridge with peer id".toList), RxItem.opt ':',
           RxItem.star Cls.ws]⟩

/-- Pattern `Peer ID:\s*(CAP)` -/
def ownPat4 : OwnPat :=
  ⟨false, [RxItem.lit ("Peer ID:".toList), RxItem.star Cls.ws]⟩

/-- Pattern `SwarmBridge.*peer[_ ]id[=:]\s*(CAP)`, `re.I` -/
def ownPat5 : OwnPat :=
  ⟨true, [RxItem.lit ("SwarmBridge".toList), RxItem.star Cls.dotNN,
          RxItem.lit ("peer".toList), RxItem.one Cls.usSpace,
          RxItem.lit ("id".toList), RxItem.one Cls.eqColon, RxItem.star Cls.ws]⟩

/-- Pattern `local.*peer.*id[=:]\s*(CAP)`, `re.I` -/
def ownPat6 : OwnPat :=
  ⟨true, [RxItem.lit ("local".toList), RxItem.star Cls.dotNN,
          RxItem.lit ("peer".toList), RxItem.star Cls.dotNN,
          RxItem.lit ("id".toList), RxItem.one Cls.eqColon, RxItem.star Cls.ws]⟩

/-- Pattern `MeshService.*started.*?(CAP)`, `re.I` -/
def ownPat7 : OwnPat :=
  ⟨true, [RxItem.lit ("MeshService".toList), RxItem.star Cls.dotNN,
          RxItem.lit ("started".toList), RxItem.lazyStar Cls.dotNN]⟩

/-- Pattern `our peer id[:\s]+(CAP)`, `re.I` -/
def ownPat8 : OwnPat :=
  ⟨true, [RxItem.lit ("our peer id".toList), RxItem.plus Cls.wsColon]⟩

/-- Pattern `identity.*?(CAP)`, `re.I` -/
def ownPat9 : OwnPat :=
  ⟨true, [RxItem.lit ("identity".toList), RxItem.lazyStar Cls.dotNN]⟩

/-- Pattern `relay/(CAP)` -/
def ownPat10 : OwnPat :=
  ⟨false, [RxItem.lit ("relay/".toList)]⟩

/-- The ten patterns, in the priority order of the source list. -/
def OWN_ID_PATTERNS : List OwnPat :=
  [ownPat1, ownPat2, ownPat3, ownPat4, ownPat5,
   ownPat6, ownPat7, ownPat8, ownPat9, ownPat10]

/-- Known peer identifier of gcp, from the hint table. -/
def gcpId : PeerId := ("12D3KooWMyngfNZajWRNRPdtc32uxn1sBYZE126NDD4b547BAMLj".toList)

/-- Known peer identifier of osx, from the hint table. -/
def osxId : PeerId := ("12D3KooWHpmuhytgzLcM4nj1hZvN5b4crB1wka3LCNfKRCd7yHj9".toList)

/-- Known peer identifier of android, from the hint table. -/
def androidId : PeerId := ("12D3KooWK8tm9qspf8FZ4sr2VHR48azhYuxCsiu7Ee5yQVoChamU".toList)

/-- Known peer identifier of ios_sim, from the hint table. -/
def iosSimId : PeerId := ("12D3KooWHqa2jd8Ec3bbXR24Fn8Lc2rPQQwjeEiY2zUyXXMCez27".toList)

/-- Known peer identifier of ios_dev, from the hint table. -/
def iosDevId : PeerId := ("12D3KooWAqrZFh84t7WbgkTcxUGesHxLUH1gTY4szfe4aEXXqvvg".toList)

/-- The `TARGET_IDS` hint table, in its insertion order. -/
def TARGET_IDS : List (PeerId × NodeName) :=
  [(gcpId, NodeName.gcp), (osxId, NodeName.osx), (androidId, NodeName.android),
   (iosSimId, NodeName.ios_sim), (iosDevId, NodeName.ios_dev)]

/-- The pattern loop of `resolve_own_id`: search each pattern in order and
return the first capture of length at least 52. -/
def tryPatterns : List OwnPat → List Char → Option PeerId
  | [], _ => none
  | p :: ps, clean =>
    match searchPat p clean with
    | some candidate =>
      if 52 ≤ candidate.length then some candidate else tryPatterns ps clean
    | none => tryPatterns ps clean

/-- Resolution, as `resolve_own_id(name, content)`: strip ANSI escapes, try all patterns
in priority order, and otherwise fall back to the `TARGET_IDS` entry for
this name when its identifier occurs in the text. -/
def resolve_own_id (name : NodeName) (content : List Char) : Option PeerId :=
  let clean := stripAnsi content
  match tryPatterns OWN_ID_PATTERNS clean with
  | some candidate => some candidate
  | none =>
    TARGET_IDS.findSome? fun pl =>
      if pl.2 = name then
        if pl.1 ∈ findIds clean then some pl.1 else none
      else none

/-- The mutable state of the monitor: the visibility matrix and the
name-to-identifier binding dictionary `file_to_id`. -/
structure MeshState where
  matrix : NodeName → Finset PeerId
  file_to_id : NodeName → Option PeerId

/-- The state at process start: empty sets, no bindings. -/
def initState : MeshState := ⟨fun _ => ∅, fun _ => none⟩

/-- The per-node body of the update loop: skip empty text; otherwise grow
the node's visibility set with the identifiers of its text and, when the
node is still unbound, bind the result of `resolve_own_id` if any. -/
def updateNode (st : MeshState) (name : NodeName) (content : List Char) : MeshState :=
  if content = [] then st
  else
    { matrix := fun n =>
        if n = name then st.matrix n ∪ (peers_in_log content).toFinset else st.matrix n
      file_to_id := fun n =>
        if n = name then
          match st.file_to_id name with
          | some i => some i
          | none =>
            match resolve_own_id name content with
            | some own => some own
            | none => none
        else st.file_to_id n }

/-- One refresh cycle: the update loop over the five nodes in dictionary
order, given each node's currently accumulated text. -/
def cycle (st : MeshState) (contents : NodeName → List Char) : MeshState :=
  NODE_LIST.foldl (fun s n => updateNode s n (contents n)) st

/-- The state after a run of successive cycles from process start. -/
def runC (css : List (NodeName → List Char)) : MeshState :=
  css.foldl cycle initState

/-- The `missing` list rendered for one node: every other node, in table
order, whose bound identifier is unknown (label suffixed `?`) or known but
absent from this node's visibility set. -/
def missingList (st : MeshState) (name : NodeName) : List (List Char) :=
  NODE_LIST.filterMap fun other =>
    if other = name then none
    else
      match st.file_to_id other with
      | some oid => if oid ∈ st.matrix name then none else some (nodeStr other)
      | none => some (nodeStr other ++ ('?' :: []))

/-- Flag `all_ok`: true exactly when no missing entry was appended for any
node. -/
def all_ok (st : MeshState) : Bool :=
  NODE_LIST.all fun n => (missingList st n).isEmpty

/-- Count `ids_found = sum(1 for n in logs if n in file_to_id)`. -/
def ids_found (st : MeshState) : Nat :=
  (NODE_LIST.filter fun n => (st.file_to_id n).isSome).length

/-- The guard of the `FULL MESH` branch: `all_ok and ids_found == len(logs)`. -/
def full_mesh (st : MeshState) : Bool :=
  all_ok st && (ids_found st == NODE_LIST.length)

/-- Keys `set(TARGET_IDS.keys())`. -/
def hintIds : List PeerId := TARGET_IDS.map Prod.fst

/-- Values `set(file_to_id.values())`. -/
def boundIds (st : MeshState) : Finset PeerId :=
  (NODE_LIST.filterMap fun n => st.file_to_id n).toFinset

/-- Union `all_known = set(TARGET_IDS.keys()) | set(file_to_id.values())`. -/
def all_known (st : MeshState) : Finset PeerId :=
  hintIds.toFinset ∪ boundIds st

/-- The stray/external peers of one node: members of its visibility set
neither known nor equal to its own binding. -/
def strays (st : MeshState) (name : NodeName) : Finset PeerId :=
  (st.matrix name).filter fun p => p ∉ all_known st ∧ st.file_to_id name ≠ some p

/-- The state with one extra identifier inserted into one node's
visibility set. -/
def addStray (st : MeshState) (name : NodeName) (p : PeerId) : MeshState :=
  { matrix := fun n => if n = name then insert p (st.matrix n) else st.matrix n
    file_to_id := st.file_to_id }

/-- Modelled from the spec: mesh-wide convergence as §4.4 and §8 word it —
every node's identity is resolved, and for every ordered pair of distinct
nodes (A, B), B's bound identifier is a member of A's visibility set. -/
def specFullMesh (st : MeshState) : Prop :=
  (∀ n, (st.file_to_id n).isSome = true) ∧
  ∀ a b, a ≠ b → ∃ i, st.file_to_id b = some i ∧ i ∈ st.matrix a

/-- The shape every extracted identifier has: the literal head followed by
a base-58 run of length at least 44. -/
def idShape (p : PeerId) : Prop :=
  ∃ r, p = pidHead ++ r ∧ 44 ≤ r.length ∧ ∀ c ∈ r, isB58 c = true

/-- A distinct partner for every node (used to read off resolvedness from
an empty missing list). -/
def partner : NodeName → NodeName
  | NodeName.gcp => NodeName.osx
  | _ => NodeName.gcp

/-- The five hint identifiers, by node (the inverse reading of the
`TARGET_IDS` table, whose labels are distinct). -/
def targetId : NodeName → PeerId
  | NodeName.gcp => gcpId
  | NodeName.osx => osxId
  | NodeName.android => androidId
  | NodeName.ios_sim => iosSimId
  | NodeName.ios_dev => iosDevId

lemma findIdsAux_nil (fuel : Nat) : findIdsAux fuel [] = [] := by
  cases fuel <;> rfl

lemma takeB58_mem {l : List Char} {c : Char} (h : c ∈ takeB58 l) : isB58 c = true := by
  induction l with
  | nil => simp [takeB58] at h
  | cons d ds ih =>
    rw [takeB58] at h
    by_cases hd : isB58 d
    · rw [if_pos hd] at h
      rcases List.mem_cons.mp h with h1 | h2
      · exact h1 ▸ hd
      · exact ih h2
    · rw [if_neg hd] at h
      simp at h

lemma takeB58_of_all {r : List Char} (h : ∀ c ∈ r, isB58 c = true) : takeB58 r = r := by
  induction r with
  | nil => rfl
  | cons d ds ih =>
    rw [takeB58, if_pos (h d (List.mem_cons_self d ds))]
    exact congrArg (d :: ·) (ih fun c hc => h c (List.mem_cons_of_mem d hc))

lemma findIdsAux_shape : ∀ (fuel : Nat) (s : List Char) (x : PeerId),
    x ∈ findIdsAux fuel s → idShape x := by
  intro fuel
  induction fuel with
  | zero => intro s x hx; simp [findIdsAux] at hx
  | succ m ih =>
    intro s x hx
    cases s with
    | nil => simp [findIdsAux] at hx
    | cons c cs =>
      simp only [findIdsAux] at hx
      split_ifs at hx with h1 h2
      · rcases List.mem_cons.mp hx with h3 | h3
        · exact ⟨takeB58 (List.drop 8 (c :: cs)), h3, h2, fun ch hch => takeB58_mem hch⟩
        · exact ih _ _ h3
      · exact ih _ _ hx
      · exact ih _ _ hx

lemma findIds_shape {s : List Char} {x : PeerId} (h : x ∈ findIds s) : idShape x :=
  findIdsAux_shape _ _ _ h

lemma litHere_self : ∀ (l t : List Char), litHere l (l ++ t) = true := by
  intro l
  induction l with
  | nil => intro t; rfl
  | cons c cs ih => intro t; simp [litHere, ih]

lemma findIds_whole (r : List Char) (hall : ∀ c ∈ r, isB58 c = true)
    (hlen : 44 ≤ r.length) : findIds (pidHead ++ r) = [pidHead ++ r] := by
  have h8 : (pidHead ++ r).length = r.length + 8 := by
    simp [pidHead]
  unfold findIds
  rw [h8]
  have hcons : pidHead ++ r = '1' :: ('2' :: 'D' :: '3' :: 'K' :: 'o' :: 'o' :: 'W' :: r) := rfl
  rw [hcons]
  rw [findIdsAux]
  rw [show litHere pidHead ('1' :: '2' :: 'D' :: '3' :: 'K' :: 'o' :: 'o' :: 'W' :: r) = true from litHere_self pidHead r]
  simp only [if_true]
  have hdrop : List.drop 8 ('1' :: '2' :: 'D' :: '3' :: 'K' :: 'o' :: 'o' :: 'W' :: r) = r := rfl
  rw [hdrop, takeB58_of_all hall, if_pos hlen, List.drop_length]
  rw [findIdsAux_nil]
  rw [hcons]


lemma peers_in_log_nil : peers_in_log ([] : List Char) = [] := rfl

lemma mem_NODE_LIST (n : NodeName) : n ∈ NODE_LIST := by
  cases n <;> simp [NODE_LIST]

lemma updateNode_matrix (st : MeshState) (name n : NodeName) (content : List Char) :
    (updateNode st name content).matrix n =
      if n = name then st.matrix n ∪ (peers_in_log content).toFinset
      else st.matrix n := by
  by_cases hc : content = []
  · subst hc
    rw [updateNode, if_pos rfl]
    by_cases hn : n = name <;> simp [hn, peers_in_log_nil]
  · rw [updateNode, if_neg hc]

lemma updateNode_fid_other (st : MeshState) (name n : NodeName) (content : List Char)
    (h : n ≠ name) : (updateNode st name content).file_to_id n = st.file_to_id n := by
  by_cases hc : content = []
  · rw [updateNode, if_pos hc]
  · rw [updateNode, if_neg hc]
    exact if_neg h

lemma updateNode_fid_some (st : MeshState) (name : NodeName) (content : List Char)
    (i : PeerId) (h : st.file_to_id name = some i) :
    (updateNode st name content).file_to_id name = some i := by
  by_cases hc : content = []
  · rw [updateNode, if_pos hc]; exact h
  · rw [updateNode, if_neg hc]
    simp [h]

lemma cycle_eq (st : MeshState) (cs : NodeName → List Char) :
    cycle st cs =
      updateNode (updateNode (updateNode (updateNode (updateNode st NodeName.gcp
        (cs NodeName.gcp)) NodeName.osx (cs NodeName.osx)) NodeName.android
        (cs NodeName.android)) NodeName.ios_dev (cs NodeName.ios_dev)) NodeName.ios_sim
        (cs NodeName.ios_sim) := rfl

lemma cycle_matrix (st : MeshState) (cs : NodeName → List Char) (n : NodeName) :
    (cycle st cs).matrix n = st.matrix n ∪ (peers_in_log (cs n)).toFinset := by
  rw [cycle_eq]
  cases n <;> simp [updateNode_matrix]

lemma updateNode_fid_pres (st : MeshState) (name n : NodeName) (content : List Char)
    (i : PeerId) (h : st.file_to_id n = some i) :
    (updateNode st name content).file_to_id n = some i := by
  by_cases hn : n = name
  · subst hn; exact updateNode_fid_some _ _ _ _ h
  · rw [updateNode_fid_other _ _ _ _ hn]; exact h

lemma cycle_fid_some (st : MeshState) (cs : NodeName → List Char) (n : NodeName)
    (i : PeerId) (h : st.file_to_id n = some i) :
    (cycle st cs).file_to_id n = some i := by
  rw [cycle_eq]
  exact updateNode_fid_pres _ _ _ _ _ (updateNode_fid_pres _ _ _ _ _
    (updateNode_fid_pres _ _ _ _ _ (updateNode_fid_pres _ _ _ _ _
      (updateNode_fid_pres _ _ _ _ _ h))))


lemma partner_ne (n : NodeName) : partner n ≠ n := by
  cases n <;> decide

lemma missingList_eq_nil_iff (st : MeshState) (name : NodeName) :
    missingList st name = [] ↔
      ∀ b, b ≠ name → ∃ i, st.file_to_id b = some i ∧ i ∈ st.matrix name := by
  rw [missingList, List.filterMap_eq_nil_iff]
  constructor
  · intro h b hb
    have hone := h b (mem_NODE_LIST b)
    rw [if_neg hb] at hone
    cases hfb : st.file_to_id b with
    | none => rw [hfb] at hone; simp at hone
    | some oid =>
      by_cases hm : oid ∈ st.matrix name
      · exact ⟨oid, rfl, hm⟩
      · rw [hfb] at hone
        simp [hm] at hone
  · intro h o _
    by_cases ho : o = name
    · rw [if_pos ho]
    · rw [if_neg ho]
      obtain ⟨i, hi, him⟩ := h o ho
      rw [hi]
      simp [him]

lemma all_ok_iff (st : MeshState) :
    all_ok st = true ↔
      ∀ a b, a ≠ b → ∃ i, st.file_to_id b = some i ∧ i ∈ st.matrix a := by
  rw [all_ok, List.all_eq_true]
  constructor
  · intro h a b hab
    have := (List.isEmpty_iff).mp (h a (mem_NODE_LIST a))
    exact (missingList_eq_nil_iff st a).mp this b (Ne.symm hab)
  · intro h n _
    rw [List.isEmpty_iff]
    exact (missingList_eq_nil_iff st n).mpr fun b hb => h n b (Ne.symm hb)

lemma ids_found_of_all (st : MeshState) (h : ∀ n, (st.file_to_id n).isSome = true) :
    ids_found st = NODE_LIST.length := by
  rw [ids_found]
  rw [List.filter_length_eq_length]
  intro a _
  exact h a

lemma full_mesh_iff_spec (st : MeshState) : full_mesh st = true ↔ specFullMesh st := by
  rw [full_mesh, Bool.and_eq_true, beq_iff_eq, all_ok_iff]
  constructor
  · rintro ⟨hok, _⟩
    refine ⟨?_, hok⟩
    intro b
    obtain ⟨i, hi, _⟩ := hok (partner b) b (Ne.symm (partner_ne b)).symm
    rw [hi]; rfl
  · rintro ⟨h1, h2⟩
    exact ⟨h2, ids_found_of_all st h1⟩


lemma runC_matrix_shape (css : List (NodeName → List Char)) (n : NodeName) (p : PeerId)
    (h : p ∈ (runC css).matrix n) : idShape p := by
  rw [runC] at h
  have base : ∀ m q, q ∈ initState.matrix m → idShape q := by
    intro m q hq
    simp [initState] at hq
  revert h
  suffices hgen : ∀ st : MeshState, (∀ m q, q ∈ st.matrix m → idShape q) →
      p ∈ (css.foldl cycle st).matrix n → idShape p from hgen initState base
  induction css with
  | nil => intro st hst h; exact hst n p h
  | cons cs rest ih =>
    intro st hst h
    refine ih (cycle st cs) ?_ h
    intro m q hq
    rw [cycle_matrix] at hq
    rcases Finset.mem_union.mp hq with h1 | h1
    · exact hst m q h1
    · exact findIds_shape (List.mem_dedup.mp (List.mem_toFinset.mp h1))

lemma nodeStr_short (n : NodeName) : (nodeStr n).length ≤ 7 := by
  cases n <;> decide

lemma missing_label_short (st : MeshState) (name : NodeName) (l : List Char)
    (h : l ∈ missingList st name) : l.length ≤ 8 := by
  rw [missingList, List.mem_filterMap] at h
  obtain ⟨o, _, hf⟩ := h
  by_cases h1 : o = name
  · rw [if_pos h1] at hf; exact absurd hf (by simp)
  · rw [if_neg h1] at hf
    cases hfo : st.file_to_id o with
    | none =>
      rw [hfo] at hf
      simp only [Option.some.injEq] at hf
      · rw [← hf]
        simp only [List.length_append, List.length_singleton]
        have := nodeStr_short o
        omega
    | some oid =>
      rw [hfo] at hf
      by_cases hm : oid ∈ st.matrix name
      · simp [hm] at hf
      · simp only [hm, if_false, Option.some.injEq] at hf
        rw [← hf]
        have := nodeStr_short o
        omega

lemma idShape_long (p : PeerId) (h : idShape p) : 52 ≤ p.length := by
  obtain ⟨r, rfl, hr, _⟩ := h
  simp only [List.length_append]
  have : pidHead.length = 8 := rfl
  omega

lemma mem_strays_iff (st : MeshState) (name : NodeName) (p : PeerId) :
    p ∈ strays st name ↔
      p ∈ st.matrix name ∧ p ∉ hintIds ∧ ∀ n, st.file_to_id n ≠ some p := by
  rw [strays, Finset.mem_filter]
  constructor
  · rintro ⟨hm, hnk, hown⟩
    rw [all_known, Finset.mem_union, not_or] at hnk
    obtain ⟨hh, hb⟩ := hnk
    refine ⟨hm, fun hc => hh (List.mem_toFinset.mpr hc), ?_⟩
    intro n hn
    exact hb (List.mem_toFinset.mpr (List.mem_filterMap.mpr ⟨n, mem_NODE_LIST n, hn⟩))
  · rintro ⟨hm, hh, hall⟩
    refine ⟨hm, ?_, hall name⟩
    rw [all_known, Finset.mem_union, not_or]
    refine ⟨fun hc => hh (List.mem_toFinset.mp hc), fun hc => ?_⟩
    obtain ⟨n, _, hn⟩ := List.mem_filterMap.mp (List.mem_toFinset.mp hc)
    exact hall n hn

lemma missingList_addStray (st : MeshState) (name : NodeName) (p : PeerId)
    (h : ∀ n, st.file_to_id n ≠ some p) (m : NodeName) :
    missingList (addStray st name p) m = missingList st m := by
  rw [missingList, missingList]
  refine List.filterMap_congr ?_
  intro o _
  by_cases h1 : o = m
  · rw [if_pos h1, if_pos h1]
  · rw [if_neg h1, if_neg h1]
    have hfid : (addStray st name p).file_to_id o = st.file_to_id o := rfl
    rw [hfid]
    cases hfo : st.file_to_id o with
    | none => rfl
    | some oid =>
      have hne : oid ≠ p := fun hc => h o (hc ▸ hfo)
      have hmat : (addStray st name p).matrix m =
          if m = name then insert p (st.matrix m) else st.matrix m := rfl
      rw [hmat]
      by_cases hm : m = name
      · rw [if_pos hm]
        simp [Finset.mem_insert, hne]
      · rw [if_neg hm]

lemma full_mesh_addStray (st : MeshState) (name : NodeName) (p : PeerId)
    (h : ∀ n, st.file_to_id n ≠ some p) :
    full_mesh (addStray st name p) = full_mesh st := by
  have hids : ids_found (addStray st name p) = ids_found st := rfl
  rw [full_mesh, full_mesh, hids]
  have hok : all_ok (addStray st name p) = all_ok st := by
    rw [all_ok, all_ok]
    simp only [missingList_addStray st name p h]
  rw [hok]


lemma tryPatterns_none (ps : List OwnPat) (clean : List Char)
    (h : ∀ p ∈ ps, searchPat p clean = none) : tryPatterns ps clean = none := by
  induction ps with
  | nil => rfl
  | cons q qs ih =>
    rw [tryPatterns]
    rw [h q (List.mem_cons_self q qs)]
    exact ih fun p hp => h p (List.mem_cons_of_mem q hp)

lemma tryPatterns_append (ps₁ : List OwnPat) (p : OwnPat) (ps₂ : List OwnPat)
    (clean : List Char) (c : PeerId)
    (h1 : ∀ q ∈ ps₁, (searchPat q clean).all (fun x => decide (x.length < 52)) = true)
    (h2 : searchPat p clean = some c) (h3 : 52 ≤ c.length) :
    tryPatterns (ps₁ ++ p :: ps₂) clean = some c := by
  induction ps₁ with
  | nil =>
    rw [List.nil_append, tryPatterns, h2]
    show (if 52 ≤ c.length then some c else tryPatterns ps₂ clean) = some c
    rw [if_pos h3]
  | cons q qs ih =>
    rw [List.cons_append, tryPatterns]
    have hq := h1 q (List.mem_cons_self q qs)
    have hrest := ih fun r hr => h1 r (List.mem_cons_of_mem q hr)
    cases hsq : searchPat q clean with
    | none => exact hrest
    | some c' =>
      rw [hsq] at hq
      have hlt : c'.length < 52 := by simpa using hq
      show (if 52 ≤ c'.length then some c' else tryPatterns (qs ++ p :: ps₂) clean) = some c
      rw [if_neg (by omega)]
      exact hrest

lemma resolve_fallback (name : NodeName) (content : List Char)
    (h : ∀ p ∈ OWN_ID_PATTERNS, searchPat p (stripAnsi content) = none) :
    resolve_own_id name content =
      if targetId name ∈ findIds (stripAnsi content) then some (targetId name)
      else none := by
  have htp := tryPatterns_none OWN_ID_PATTERNS (stripAnsi content) h
  cases name with
  | gcp =>
    by_cases hm : gcpId ∈ findIds (stripAnsi content) <;>
      simp [resolve_own_id, htp, TARGET_IDS, targetId, List.findSome?, hm]
  | osx =>
    by_cases hm : osxId ∈ findIds (stripAnsi content) <;>
      simp [resolve_own_id, htp, TARGET_IDS, targetId, List.findSome?, hm]
  | android =>
    by_cases hm : androidId ∈ findIds (stripAnsi content) <;>
      simp [resolve_own_id, htp, TARGET_IDS, targetId, List.findSome?, hm]
  | ios_dev =>
    by_cases hm : iosDevId ∈ findIds (stripAnsi content) <;>
      simp [resolve_own_id, htp, TARGET_IDS, targetId, List.findSome?, hm]
  | ios_sim =>
    by_cases hm : iosSimId ∈ findIds (stripAnsi content) <;>
      simp [resolve_own_id, htp, TARGET_IDS, targetId, List.findSome?, hm]

/-- Per-node input in which every node announces its own identity and
mentions all five known identifiers (a fully converged snapshot). -/
def c1contents : NodeName → List Char := fun n =>
  ("local_peer_id = ".toList) ++ targetId n ++ (" ".toList) ++ gcpId ++ (" ".toList) ++
    osxId ++ (" ".toList) ++ androidId ++ (" ".toList) ++ iosSimId ++ (" ".toList) ++ iosDevId

/-- First-cycle input binding gcp to its known identifier. -/
def c2first : NodeName → List Char := fun n =>
  match n with
  | NodeName.gcp => ("local_peer_id = ".toList) ++ gcpId
  | _ => []

/-- Second-cycle input that would bind gcp to osx's identifier if
rebinding were possible. -/
def c2second : NodeName → List Char := fun n =>
  match n with
  | NodeName.gcp => ("Local Peer ID: ".toList) ++ osxId
  | _ => []

/-- A valid identifier made of 44 letters a. -/
def c4X : PeerId := pidHead ++ List.replicate 44 'a'

/-- A valid identifier made of 44 letters b. -/
def c4Y : PeerId := pidHead ++ List.replicate 44 'b'

/-- Text where the fourth pattern's match comes textually first and the
third pattern's match later. -/
def c4text : List Char :=
  ("Peer ID: ".toList) ++ c4Y ++ (" SwarmBridge with peer id: ".toList) ++ c4X

/-- A valid identifier made of 44 letters a. -/
def c5id : PeerId := pidHead ++ List.replicate 44 'a'

/-- A base-58 run long enough to hold two back-to-back identifiers. -/
def c5run : List Char := List.replicate 88 'z'

/-- Text with an ANSI escape splitting an identifier, and the same
identifier repeated. -/
def c5text : List Char :=
  pidHead ++ ("\x1b[32m".toList) ++ List.replicate 44 'a' ++ ("\x1b[0m ".toList) ++ c5id

/-- A valid identifier made of 44 letters k, outside the hint table. -/
def c7stray : PeerId := pidHead ++ List.replicate 44 'k'

/-- Input in which gcp's text is exactly one unknown identifier. -/
def c7contents : NodeName → List Char := fun n =>
  match n with
  | NodeName.gcp => c7stray
  | _ => []

/-- A valid identifier made of 44 letters x. -/
def c9id : PeerId := pidHead ++ List.replicate 44 'x'

/-- Input in which gcp and osx both announce the same identifier. -/
def c9contents : NodeName → List Char := fun n =>
  match n with
  | NodeName.gcp => ("local_peer_id = ".toList) ++ c9id
  | NodeName.osx => ("local_peer_id = ".toList) ++ c9id
  | _ => []

/-- A 44-character alphanumeric run whose last character is the digit 0,
which the self-identity patterns accept but the extractor's base-58
alphabet rejects. -/
def c10run : List Char := List.replicate 43 'a' ++ ('0' :: [])

/-- An identifier capturable by the self-identity patterns but never
producible by the extractor. -/
def c10id : PeerId := pidHead ++ c10run

/-- Text announcing `c10id` through the first pattern. -/
def c10text : List Char := ("local_peer_id = ".toList) ++ c10id

/-- C1: the FULL MESH verdict is printed exactly when `all_ok` holds and
`ids_found` equals the number of nodes, and this is equivalent to: every
node's identity is resolved and, for every ordered pair of distinct nodes
(A, B), B's bound identifier is a member of A's visibility set. -/
theorem claim_C1_full_mesh_iff (st : MeshState) :
    full_mesh st = true ↔ specFullMesh st := full_mesh_iff_spec st

/-- Witness for C1: a state reached by one cycle over fully converged
inputs satisfies the spec-side convergence predicate. -/
theorem claim_C1_witness : specFullMesh (cycle initState c1contents) :=
  (claim_C1_full_mesh_iff (cycle initState c1contents)).mp (by decide)

/-- C2: once a node's name is bound to an identifier, any number of
further cycles with any further input text leaves the binding unchanged
(the first successful resolution is terminal for the run). -/
theorem claim_C2_write_once (st : MeshState) (css : List (NodeName → List Char))
    (name : NodeName) (i : PeerId) (h : st.file_to_id name = some i) :
    (css.foldl cycle st).file_to_id name = some i := by
  induction css generalizing st with
  | nil => exact h
  | cons cs rest ih => exact ih (cycle st cs) (cycle_fid_some st cs name i h)

/-- Witness for C2: gcp bound via its own announcement stays bound to the
same identifier after a later cycle whose text announces a different one. -/
theorem claim_C2_witness :
    (List.foldl cycle (runC (c2first :: [])) (c2second :: [])).file_to_id NodeName.gcp =
      some gcpId :=
  claim_C2_write_once (runC (c2first :: [])) (c2second :: []) NodeName.gcp gcpId (by decide)

/-- C3: each cycle replaces a node's visibility set with the union of its
previous contents and the identifiers extracted from the node's current
text, and across any sequence of cycles the set never loses a member. -/
theorem claim_C3_matrix_monotone :
    (∀ (st : MeshState) (cs : NodeName → List Char) (n : NodeName),
      (cycle st cs).matrix n = st.matrix n ∪ (peers_in_log (cs n)).toFinset) ∧
    (∀ (st : MeshState) (css : List (NodeName → List Char)) (n : NodeName),
      st.matrix n ⊆ (css.foldl cycle st).matrix n) := by
  refine ⟨cycle_matrix, ?_⟩
  intro st css n
  induction css generalizing st with
  | nil => exact Finset.Subset.refl _
  | cons cs rest ih =>
    refine Finset.Subset.trans ?_ (ih (cycle st cs))
    rw [cycle_matrix]
    exact Finset.subset_union_left

/-- C4: the patterns of `OWN_ID_PATTERNS` are evaluated strictly in list
order, and the first pattern whose search yields a capture of length at
least 52 determines the result of `resolve_own_id`, wherever each match
occurs in the text. -/
theorem claim_C4_priority_order (content : List Char) (name : NodeName)
    (ps₁ : List OwnPat) (p : OwnPat) (ps₂ : List OwnPat) (c : PeerId)
    (hsplit : OWN_ID_PATTERNS = ps₁ ++ p :: ps₂)
    (hbefore : ∀ q ∈ ps₁,
      (searchPat q (stripAnsi content)).all (fun x => decide (x.length < 52)) = true)
    (hp : searchPat p (stripAnsi content) = some c) (hlen : 52 ≤ c.length) :
    resolve_own_id name content = some c := by
  have htry := tryPatterns_append ps₁ p ps₂ (stripAnsi content) c hbefore hp hlen
  rw [← hsplit] at htry
  simp only [resolve_own_id, htry]

/-- Witness for C4: with a fourth-priority match at the start of the text
and a third-priority match at its end, the third pattern's capture wins. -/
theorem claim_C4_witness : resolve_own_id NodeName.gcp c4text = some c4X :=
  claim_C4_priority_order c4text NodeName.gcp
    (ownPat1 :: ownPat2 :: []) ownPat3
    (ownPat4 :: ownPat5 :: ownPat6 :: ownPat7 :: ownPat8 :: ownPat9 :: ownPat10 :: [])
    c4X rfl (by decide) (by decide) (by decide)

/-- C5: the extractor first strips ANSI escapes, returns a duplicate-free
list whose every member is the literal head followed by a base-58 run of
length at least 44, and matches greedily, so a longer valid run is never
split into shorter matches. -/
theorem claim_C5_extractor :
    (∀ content : List Char,
      peers_in_log content = (findIds (stripAnsi content)).dedup ∧
      (peers_in_log content).Nodup ∧
      ∀ x ∈ peers_in_log content, idShape x) ∧
    (∀ r : List Char, (∀ c ∈ r, isB58 c = true) → 44 ≤ r.length →
      findIds (pidHead ++ r) = [pidHead ++ r]) := by
  constructor
  · intro content
    exact ⟨rfl, List.nodup_dedup _, fun x hx => findIds_shape (List.mem_dedup.mp hx)⟩
  · exact findIds_whole

/-- Witness for C5: an ANSI-decorated, repeated identifier extracts to a
one-element list, and a run of 88 base-58 characters stays one match. -/
theorem claim_C5_witness :
    peers_in_log c5text = (c5id :: []) ∧
    findIds (pidHead ++ c5run) = ((pidHead ++ c5run) :: []) :=
  ⟨by decide, claim_C5_extractor.2 c5run (by decide) (by decide)⟩

/-- C6: when no self-identity pattern matches, `resolve_own_id` returns
the hint-table identifier of the node exactly when that identifier occurs
as an extractable identifier in the node's own text, and returns `none`
otherwise. -/
theorem claim_C6_hint_fallback (name : NodeName) (content : List Char)
    (h : ∀ p ∈ OWN_ID_PATTERNS, searchPat p (stripAnsi content) = none) :
    (resolve_own_id name content = some (targetId name) ↔
      targetId name ∈ findIds (stripAnsi content)) ∧
    (targetId name ∉ findIds (stripAnsi content) → resolve_own_id name content = none) := by
  have hr := resolve_fallback name content h
  refine ⟨⟨fun he => ?_, fun hm => ?_⟩, fun hm => ?_⟩
  · by_contra hm
    rw [hr, if_neg hm] at he
    exact Option.noConfusion he
  · rw [hr, if_pos hm]
  · rw [hr, if_neg hm]

/-- Witness for C6: osx's text consisting of exactly its known identifier
resolves to that identifier through the fallback. -/
theorem claim_C6_witness :
    resolve_own_id NodeName.osx osxId = some (targetId NodeName.osx) :=
  ((claim_C6_hint_fallback NodeName.osx osxId (by decide)).1).mpr (by decide)

/-- C7: an identifier is a stray of a node exactly when it is in the
node's visibility set, outside the hint table, and bound to no node; in a
reachable state a stray never appears in the node's missing list; and
inserting an unbound identifier into a visibility set leaves the
convergence verdict unchanged. -/
theorem claim_C7_strays :
    (∀ (st : MeshState) (name : NodeName) (p : PeerId),
      p ∈ strays st name ↔
        p ∈ st.matrix name ∧ p ∉ hintIds ∧ ∀ n, st.file_to_id n ≠ some p) ∧
    (∀ (css : List (NodeName → List Char)) (name : NodeName) (p : PeerId),
      p ∈ strays (runC css) name → ∀ l ∈ missingList (runC css) name, l ≠ p) ∧
    (∀ (st : MeshState) (name : NodeName) (p : PeerId),
      (∀ n, st.file_to_id n ≠ some p) → full_mesh (addStray st name p) = full_mesh st) := by
  refine ⟨mem_strays_iff, ?_, full_mesh_addStray⟩
  intro css name p hp l hl heq
  have hmem : p ∈ (runC css).matrix name := (Finset.mem_filter.mp hp).1
  have hlong := idShape_long p (runC_matrix_shape css name p hmem)
  have hshort := missing_label_short (runC css) name l hl
  rw [heq] at hshort
  omega

/-- Witness for C7: an unknown identifier in gcp's log is a stray of gcp,
is distinct from every entry of gcp's missing list, and inserting it
anywhere leaves the verdict unchanged. -/
theorem claim_C7_witness :
    c7stray ∈ strays (runC (c7contents :: [])) NodeName.gcp ∧
    (∀ l ∈ missingList (runC (c7contents :: [])) NodeName.gcp, l ≠ c7stray) ∧
    full_mesh (addStray (runC (c7contents :: [])) NodeName.gcp c7stray) =
      full_mesh (runC (c7contents :: [])) :=
  ⟨(claim_C7_strays.1 (runC (c7contents :: [])) NodeName.gcp c7stray).mpr (by decide),
   fun l hl => claim_C7_strays.2.1 (c7contents :: []) NodeName.gcp c7stray (by decide) l hl,
   claim_C7_strays.2.2 (runC (c7contents :: [])) NodeName.gcp c7stray (by decide)⟩

/-- C8: a cycle over empty inputs leaves every identity unresolved and
every visibility set empty, the verdict is not full mesh, and every
node's missing list holds the four other nodes tagged unresolved. -/
theorem claim_C8_empty_inputs :
    (∀ n, (cycle initState (fun _ => [])).file_to_id n = none) ∧
    (∀ n, (cycle initState (fun _ => [])).matrix n = ∅) ∧
    full_mesh (cycle initState (fun _ => [])) = false ∧
    missingList (cycle initState (fun _ => [])) NodeName.gcp =
      (("osx?".toList) :: ("android?".toList) :: ("ios_dev?".toList) :: ("ios_sim?".toList) :: []) ∧
    missingList (cycle initState (fun _ => [])) NodeName.osx =
      (("gcp?".toList) :: ("android?".toList) :: ("ios_dev?".toList) :: ("ios_sim?".toList) :: []) ∧
    missingList (cycle initState (fun _ => [])) NodeName.android =
      (("gcp?".toList) :: ("osx?".toList) :: ("ios_dev?".toList) :: ("ios_sim?".toList) :: []) ∧
    missingList (cycle initState (fun _ => [])) NodeName.ios_dev =
      (("gcp?".toList) :: ("osx?".toList) :: ("android?".toList) :: ("ios_sim?".toList) :: []) ∧
    missingList (cycle initState (fun _ => [])) NodeName.ios_sim =
      (("gcp?".toList) :: ("osx?".toList) :: ("android?".toList) :: ("ios_dev?".toList) :: []) := by
  decide

/-- C9: the identity binding need not be injective: after one cycle over
inputs where gcp and osx announce the same identifier, the two distinct
node names are both bound to it. -/
theorem claim_C9_binding_not_injective :
    NodeName.gcp ≠ NodeName.osx ∧
    (cycle initState c9contents).file_to_id NodeName.gcp = some c9id ∧
    (cycle initState c9contents).file_to_id NodeName.osx = some c9id := by
  decide

/-- C10: a node can be bound to an identifier containing the digit 0,
which the self-identity patterns accept, while the extractor's base-58
alphabet can never produce it in any visibility set. -/
theorem claim_C10_unobservable_binding :
    resolve_own_id NodeName.gcp c10text = some c10id ∧
    ∀ s : List Char, c10id ∉ findIds s := by
  constructor
  · decide
  · intro s hmem
    obtain ⟨r, hr, hlen, hall⟩ := findIds_shape hmem
    have h2 : pidHead ++ c10run = pidHead ++ r := hr
    have hrr : c10run = r := List.append_cancel_left h2
    have h0 : ('0' : Char) ∈ r := hrr ▸ (by decide : ('0' : Char) ∈ c10run)
    exact absurd (hall '0' h0) (by decide)

end SCMesh
